import Mathlib

/-!
Verification of `scripts/run_benchmarks.py`.

The script has two independent units:

* a command builder / runner (`TOOL_COMMANDS`, `build_command`,
  `command_available`, `run_tool`) that wraps third-party benchmark CLIs, and
* an artifact summarizer (`summarize_artifacts`, `print_summary_table`) that
  recursively collects every numeric leaf of JSON/JSONL/YAML documents into
  dotted-path metric series and reports count/mean/min/max per series.

Embedding conventions:

* Python floats are modelled as exact rationals (`ℚ`); `statistics.fmean`
  is the exact `sum / length`.
* Parsed documents are modelled by the inductive `JValue` (a JSON-like value
  tree).  The external parsers `json.loads` and `yaml.safe_load` are
  modelled as oracle functions `String → Except String JValue` passed as
  parameters (`yaml = None`, the missing optional dependency, is the `none`
  case of an `Option` of such a function).  A parse failure (which in the
  script also stands for a `read_text` I/O or decoding failure, since both
  are caught by the same `except` clause) is the `.error` case carrying the
  exception text.
* Python string operations used by the script (`str.rstrip('.')`,
  `str.splitlines` restricted to `'\n'` separators, `str.strip()` used only
  for blank-line detection, `' '.join`) are re-implemented structurally over
  the character list of a `String` so that all definitions evaluate by
  kernel reduction.
* Side effects are made explicit: printed lines are returned as values,
  `subprocess.run` is modelled by a caller-supplied exit-code oracle
  together with a `spawned` field recording whether (and with which argv)
  a child process was started, and `shutil.which` is a caller-supplied
  predicate on executable names.
-/

namespace RunBenchmarks

/- JSON-like document values, as produced by `json.loads` / `yaml.safe_load`.
Objects and arrays are given their own mutual list types so that all
recursion over documents is structural. -/
mutual
inductive JValue : Type where
  | jnull : JValue
  | jbool (b : Bool) : JValue
  | jnum (q : ℚ) : JValue
  | jstr (s : String) : JValue
  | jarr (items : JItems) : JValue
  | jobj (fields : JFields) : JValue
inductive JItems : Type where
  | nil : JItems
  | cons (v : JValue) (rest : JItems) : JItems
inductive JFields : Type where
  | nil : JFields
  | cons (k : String) (v : JValue) (rest : JFields) : JFields
end

/-- Python `s.rstrip('.')`: drop every trailing `'.'` character. -/
def rstripDot (s : String) : String :=
  ⟨(s.data.reverse.dropWhile (· = '.')).reverse⟩

/-- Helper for `splitLines`: walk the character list, cutting at `'\n'`. -/
def splitLinesAux : List Char → List Char → List String
  | [], acc => if acc.isEmpty then [] else [⟨acc.reverse⟩]
  | '\n' :: rest, acc => (⟨acc.reverse⟩ : String) :: splitLinesAux rest []
  | c :: rest, acc => splitLinesAux rest (c :: acc)

/-- Python `str.splitlines` restricted to `'\n'` separators: split at every
newline and drop a trailing empty piece. -/
def splitLines (s : String) : List String :=
  splitLinesAux s.data []

/-- Python `not line.strip()`: the line consists only of whitespace. -/
def isBlank (s : String) : Bool :=
  s.data.all (fun c => c = ' ' ∨ c = '\t' ∨ c = '\n' ∨ c = '\r')

/-- Python `' '.join`. -/
def joinSpace : List String → String
  | [] => ""
  | [s] => s
  | s :: rest => s ++ " " ++ joinSpace rest

mutual
/-- The recursive walk `collect_numeric` of `summarize_artifacts`: visit a
document with a growing dotted prefix and emit, in visit order, one
`(series name, sample)` pair per numeric scalar.  Mappings recurse with
`key ++ "."` appended, lists with the decimal index appended; an `int` or
`float` scalar that is not a `bool` is recorded under the prefix with its
trailing dots stripped; every other scalar is dropped. -/
def collect_numeric : JValue → String → List (String × ℚ)
  | .jobj fields, pre => collectFields fields pre
  | .jarr items, pre => collectItems items 0 pre
  | .jnum q, pre => [(rstripDot pre, q)]
  | _, _ => []
/-- Object part of `collect_numeric`: the loop over `payload.items()`. -/
def collectFields : JFields → String → List (String × ℚ)
  | .nil, _ => []
  | .cons k v rest, pre => collect_numeric v (pre ++ k ++ ".") ++ collectFields rest pre
/-- Array part of `collect_numeric`: the loop over `enumerate(payload)`. -/
def collectItems : JItems → Nat → String → List (String × ℚ)
  | .nil, _, _ => []
  | .cons v rest, i, pre =>
      collect_numeric v (pre ++ toString i ++ ".") ++ collectItems rest (i + 1) pre
end

/-- Key registration of `defaultdict(list)`: appending to `metrics[n]`
creates the key at the end of the iteration order if it is new. -/
def insertKey (ks : List String) (n : String) : List String :=
  if n ∈ ks then ks else ks ++ [n]

/-- The iteration order of the keys of `metrics` after appending the given
sample stream: first-appearance order of the series names. -/
def seriesNames (samples : List (String × ℚ)) : List String :=
  samples.foldl (fun ks p => insertKey ks p.1) []

/-- The value list `metrics[n]`: all samples recorded under series `n`, in
append order. -/
def seriesOf (samples : List (String × ℚ)) (n : String) : List ℚ :=
  (samples.filter (fun p => decide (p.1 = n))).map Prod.snd

/-- One row of the summary: `count`, `mean`, `min`, `max` of a series
(`count` is stored as `float(len(values))`, hence a rational here). -/
structure MetricSummary where
  count : ℚ
  mean : ℚ
  min : ℚ
  max : ℚ
deriving DecidableEq

/-- Summary of one value list: `None` for an empty list (the
`if not values: continue` guard), otherwise count, `statistics.fmean`
(= exact sum divided by length), `min` and `max` (Python folds from the
first element). -/
def statsOf : List ℚ → Option MetricSummary
  | [] => none
  | v :: vs =>
      some
        { count := ((vs.length + 1 : ℕ) : ℚ)
        , mean := (v :: vs).sum / ((vs.length + 1 : ℕ) : ℚ)
        , min := vs.foldl Min.min v
        , max := vs.foldl Max.max v }

/-- The summary dictionary built from a sample stream: one entry per series
key (in dict iteration order), skipping empty value lists. -/
def summaryOfMetrics (samples : List (String × ℚ)) : List (String × MetricSummary) :=
  (seriesNames samples).filterMap
    (fun n => (statsOf (seriesOf samples n)).map (fun st => (n, st)))

/-- One entry produced by `directory.rglob("*")`: its path (for diagnostic
messages), whether it is a directory, its extension (`path.suffix`), and the
text `read_text()` yields. -/
structure ArtifactEntry where
  path : String
  isDir : Bool
  suffix : String
  text : String
deriving DecidableEq

/-- The diagnostic printed to stderr when processing a file raises. -/
def skipMsg (path exc : String) : String :=
  "[summarize] Skipping " ++ path ++ " (" ++ exc ++ ")"

/-- The `.jsonl` loop of `summarize_artifacts`: parse each non-blank line in
order; a parse failure raises out of the loop, so samples of earlier lines
are kept, the diagnostic is emitted once, and later lines are dropped. -/
def processLines (jsonLoads : String → Except String JValue) (path : String) :
    List String → List (String × ℚ) × List String
  | [] => ([], [])
  | line :: rest =>
      if isBlank line then processLines jsonLoads path rest
      else
        match jsonLoads line with
        | .error exc => ([], [skipMsg path exc])
        | .ok d =>
            let r := processLines jsonLoads path rest
            (collect_numeric d "" ++ r.1, r.2)

/-- Per-entry body of the `rglob` loop of `summarize_artifacts`: directories
are skipped, the extension dispatches to the JSON / JSONL / YAML parser
(YAML only when the optional decoder is present), anything else is ignored;
a parse failure yields no samples and one diagnostic. Returns the samples
appended to `metrics` and the diagnostics printed for this entry. -/
def processFile (jsonLoads : String → Except String JValue)
    (yamlLoad : Option (String → Except String JValue)) (e : ArtifactEntry) :
    List (String × ℚ) × List String :=
  if e.isDir then ([], [])
  else if e.suffix = ".json" then
    match jsonLoads e.text with
    | .ok d => (collect_numeric d "", [])
    | .error exc => ([], [skipMsg e.path exc])
  else if e.suffix = ".jsonl" then
    processLines jsonLoads e.path (splitLines e.text)
  else if e.suffix = ".yml" ∨ e.suffix = ".yaml" then
    match yamlLoad with
    | none => ([], [])
    | some f =>
        match f e.text with
        | .ok d => (collect_numeric d "", [])
        | .error exc => ([], [skipMsg e.path exc])
  else ([], [])

/-- All samples appended to `metrics` over the whole scan, in visit order. -/
def runSamples (jsonLoads : String → Except String JValue)
    (yamlLoad : Option (String → Except String JValue)) (fs : List ArtifactEntry) :
    List (String × ℚ) :=
  fs.flatMap (fun e => (processFile jsonLoads yamlLoad e).1)

/-- All diagnostics printed to stderr over the whole scan, in visit order. -/
def runLogs (jsonLoads : String → Except String JValue)
    (yamlLoad : Option (String → Except String JValue)) (fs : List ArtifactEntry) :
    List String :=
  fs.flatMap (fun e => (processFile jsonLoads yamlLoad e).2)

/-- Model of `summarize_artifacts`: scan the entries (in the order `rglob` yields
them), aggregate the numeric samples into the summary dictionary, and
report the stderr diagnostics. -/
def summarize_artifacts (jsonLoads : String → Except String JValue)
    (yamlLoad : Option (String → Except String JValue)) (fs : List ArtifactEntry) :
    List (String × MetricSummary) × List String :=
  (summaryOfMetrics (runSamples jsonLoads yamlLoad fs), runLogs jsonLoads yamlLoad fs)

/-- One line printed by `print_summary_table`, with the numeric cells kept
symbolic (the fixed-point decimal rendering of the f-string is not
modelled). -/
inductive TableLine where
  | noMetrics : TableLine
  | header : TableLine
  | separator : TableLine
  | row (metric : String) (count mean mn mx : ℚ) : TableLine
deriving DecidableEq

/-- Dictionary lookup `summary[n]`. -/
def lookupName : List (String × MetricSummary) → String → Option MetricSummary
  | [], _ => none
  | (k, st) :: rest, n => if k = n then some st else lookupName rest n

/-- Model of `print_summary_table`: an explicit no-metrics message for an empty
summary, otherwise a header, a separator, and one row per metric in
lexicographically sorted key order. -/
def print_summary_table (summary : List (String × MetricSummary)) : List TableLine :=
  if summary = [] then [TableLine.noMetrics]
  else
    TableLine.header :: TableLine.separator ::
      (List.insertionSort (· ≤ ·) (summary.map Prod.fst)).filterMap
        (fun n =>
          (lookupName summary n).map
            (fun st => TableLine.row n st.count st.mean st.min st.max))

/-- The `summarize` sub-command of `main`: reject a missing directory
(`parser.error`, modelled as `.error`), otherwise scan, print the table,
and return exit code 0 unconditionally. -/
def summarize_cmd (directory : String) (dirExists : Bool)
    (jsonLoads : String → Except String JValue)
    (yamlLoad : Option (String → Except String JValue)) (fs : List ArtifactEntry) :
    Except String (List TableLine × List String × Int) :=
  if dirExists then
    let result := summarize_artifacts jsonLoads yamlLoad fs
    .ok (print_summary_table result.1, result.2, 0)
  else .error ("Artifact directory " ++ directory ++ " does not exist.")

/-- Static invocation shape of one supported tool. -/
structure ToolMeta where
  executable : List String
  config_flag : Option String
  model_flag : Option String
deriving DecidableEq

/-- The `TOOL_COMMANDS` table, as a lookup function on the tool name. -/
def TOOL_COMMANDS : String → Option ToolMeta := fun tool =>
  if tool = "openai-evals" then some ⟨["oaieval", "run"], none, some "--model"⟩
  else if tool = "helm" then some ⟨["helm-run"], some "--config", some "--model"⟩
  else if tool = "lm-eval" then some ⟨["lm_eval"], some "--config", some "--model"⟩
  else none

/-- Python truthiness of an optional string: `None` and `""` are falsy. -/
def pyTruthyStr : Option String → Bool
  | none => false
  | some s => decide (s ≠ "")

/-- The error raised for a tool name missing from `TOOL_COMMANDS`. -/
def unsupportedMsg (tool : String) : String :=
  "Unsupported tool " ++ tool ++ ". Expected one of helm, lm-eval, openai-evals"

/-- The config part of the command: `[config_flag, config]` when the profile
has a truthy config flag, else the bare positional `[config]`. -/
def configPart (meta : ToolMeta) (config : String) : List String :=
  if pyTruthyStr meta.config_flag then [meta.config_flag.getD "", config]
  else [config]

/-- The model part of the command: `[model_flag, model]` when both the model
argument and the profile flag are truthy, else nothing. -/
def modelPart (meta : ToolMeta) (model : Option String) : List String :=
  if pyTruthyStr model && pyTruthyStr meta.model_flag then
    [meta.model_flag.getD "", model.getD ""]
  else []

/-- Model of `build_command`: raise for an unknown tool, otherwise executable words,
config part, model part, then the passthrough arguments. -/
def build_command (tool config : String) (model : Option String)
    (extra : List String) : Except String (List String) :=
  match TOOL_COMMANDS tool with
  | none => .error (unsupportedMsg tool)
  | some meta => .ok (meta.executable ++ configPart meta config ++ modelPart meta model ++ extra)

/-- Model of `command_available`: the first word of the command resolves on PATH
(`which` models `shutil.which`). -/
def command_available (which : String → Bool) : List String → Bool
  | [] => false
  | exe :: _ => which exe

/-- Observable outcome of `run_tool`: the lines printed to stdout, the argv
passed to `subprocess.run` if a child was spawned, and the returned exit
code. -/
structure RunResult where
  printed : List String
  spawned : Option (List String)
  exitCode : Int
deriving DecidableEq

/-- Model of `run_tool`: build the command (an unknown tool raises out of the
function), print the banner, then: dry run returns 0 without consulting
PATH; an unresolvable executable returns the distinguished code 127 without
spawning; otherwise the child runs and its exit code is passed through
(`childExit` models `subprocess.run(...).returncode`). -/
def run_tool (which : String → Bool) (childExit : List String → Int)
    (tool config : String) (model : Option String) (dry_run : Bool)
    (extra : List String) : Except String RunResult :=
  match build_command tool config model extra with
  | .error e => .error e
  | .ok command =>
      let logs := ["[benchmark] Tool     : " ++ tool, "[benchmark] Config   : " ++ config]
      let logs := if pyTruthyStr model then logs ++ ["[benchmark] Model    : " ++ model.getD ""] else logs
      let logs := logs ++
        ["[benchmark] Extra    : " ++ (if extra = [] then "(none)" else joinSpace extra)]
      let logs := logs ++ ["[benchmark] Command  : " ++ joinSpace command]
      if dry_run then
        .ok ⟨logs ++ ["[benchmark] Dry run requested. Command not executed."], none, 0⟩
      else if !(command_available which command) then
        .ok ⟨logs ++
          ["[benchmark] ERROR    : Executable not found on PATH. Install the relevant framework or run with --dry-run."],
          none, 127⟩
      else
        .ok ⟨logs ++ ["[benchmark] Exit code: " ++ toString (childExit command)],
          some command, childExit command⟩

/-- Samples one `.jsonl` line contributes when it does not raise: none for a
blank or unparseable line, otherwise its collected numeric leaves. -/
def lineSamples (jsonLoads : String → Except String JValue) (line : String) :
    List (String × ℚ) :=
  if isBlank line then []
  else
    match jsonLoads line with
    | .ok d => collect_numeric d ""
    | .error _ => []

/-- Document `{"a": {"b": 1, "c": 2.5}}`. -/
def docAB : JValue :=
  .jobj (.cons "a" (.jobj (.cons "b" (.jnum 1) (.cons "c" (.jnum (5/2)) .nil))) .nil)

/-- Source text of `docAB`. -/
def abText : String := "\x7b\"a\": \x7b\"b\": 1, \"c\": 2.5\x7d\x7d"

/-- Document `{"flag": true, "name": "ok"}`. -/
def docFlag : JValue :=
  .jobj (.cons "flag" (.jbool true) (.cons "name" (.jstr "ok") .nil))

/-- Source text of `docFlag`. -/
def flagText : String := "\x7b\"flag\": true, \"name\": \"ok\"\x7d"

/-- The line `{"x": 1}`. -/
def lineX1 : String := "\x7b\"x\": 1\x7d"

/-- The line `{"x": 3}`. -/
def lineX3 : String := "\x7b\"x\": 3\x7d"

/-- Document `{"x": 1}`. -/
def docX1 : JValue := .jobj (.cons "x" (.jnum 1) .nil)

/-- Document `{"x": 3}`. -/
def docX3 : JValue := .jobj (.cons "x" (.jnum 3) .nil)

/-- Concrete stand-in for `json.loads`, consistent with the real parser on
the handful of texts the concrete examples use: the well-formed demo
documents parse to their `JValue` models and anything else raises the
CPython message for a document that starts with an invalid token. -/
def demoJsonLoads : String → Except String JValue := fun s =>
  if s = abText then .ok docAB
  else if s = flagText then .ok docFlag
  else if s = lineX1 then .ok docX1
  else if s = lineX3 then .ok docX3
  else .error "Expecting value: line 1 column 1 (char 0)"

/-- Observable outcome of a dry run of `helm` with config `cfg.yaml`, no
model and no passthrough arguments. -/
def demoDryRun : RunResult :=
  ⟨["[benchmark] Tool     : helm", "[benchmark] Config   : cfg.yaml",
    "[benchmark] Extra    : (none)",
    "[benchmark] Command  : helm-run --config cfg.yaml",
    "[benchmark] Dry run requested. Command not executed."], none, 0⟩

lemma mem_insertKey {ks : List String} {m n : String} :
    n ∈ insertKey ks m ↔ n ∈ ks ∨ n = m := by
  by_cases h : m ∈ ks
  · simp only [insertKey, if_pos h]
    constructor
    · exact Or.inl
    · rintro (h' | rfl)
      · exact h'
      · exact h
  · simp [insertKey, if_neg h, List.mem_append]

lemma nodup_insertKey {ks : List String} {m : String} (h : ks.Nodup) :
    (insertKey ks m).Nodup := by
  by_cases hm : m ∈ ks
  · simpa [insertKey, if_pos hm] using h
  · simp only [insertKey, if_neg hm]
    rw [List.nodup_append]
    refine ⟨h, List.nodup_singleton m, ?_⟩
    intro a ha hb
    rw [List.mem_singleton] at hb
    exact hm (hb ▸ ha)

lemma mem_seriesNames_foldl :
    ∀ (samples : List (String × ℚ)) (ks : List String) (n : String),
      n ∈ samples.foldl (fun acc p => insertKey acc p.1) ks ↔
        n ∈ ks ∨ n ∈ samples.map Prod.fst := by
  intro samples
  induction samples with
  | nil => simp
  | cons p rest ih =>
      intro ks n
      rw [List.foldl_cons, ih, mem_insertKey]
      simp only [List.map_cons, List.mem_cons]
      tauto

lemma nodup_seriesNames_foldl :
    ∀ (samples : List (String × ℚ)) (ks : List String), ks.Nodup →
      (samples.foldl (fun acc p => insertKey acc p.1) ks).Nodup := by
  intro samples
  induction samples with
  | nil => exact fun ks h => h
  | cons p rest ih =>
      intro ks h
      rw [List.foldl_cons]
      exact ih _ (nodup_insertKey h)

lemma mem_seriesNames {samples : List (String × ℚ)} {n : String} :
    n ∈ seriesNames samples ↔ n ∈ samples.map Prod.fst := by
  rw [seriesNames, mem_seriesNames_foldl]
  simp

lemma seriesNames_nodup (samples : List (String × ℚ)) : (seriesNames samples).Nodup :=
  nodup_seriesNames_foldl samples [] List.nodup_nil

lemma seriesNames_perm {s₁ s₂ : List (String × ℚ)} (h : s₁.Perm s₂) :
    (seriesNames s₁).Perm (seriesNames s₂) := by
  rw [List.perm_ext_iff_of_nodup (seriesNames_nodup s₁) (seriesNames_nodup s₂)]
  intro n
  rw [mem_seriesNames, mem_seriesNames, (h.map Prod.fst).mem_iff]

lemma seriesOf_perm {s₁ s₂ : List (String × ℚ)} (h : s₁.Perm s₂) (n : String) :
    (seriesOf s₁ n).Perm (seriesOf s₂ n) :=
  (h.filter _).map _

lemma foldl_min_spec :
    ∀ (vs : List ℚ) (v : ℚ),
      vs.foldl Min.min v ∈ v :: vs ∧ ∀ x ∈ v :: vs, vs.foldl Min.min v ≤ x := by
  intro vs
  induction vs with
  | nil =>
      intro v
      refine ⟨List.mem_cons_self v [], ?_⟩
      intro x hx
      rw [List.mem_singleton] at hx
      simp [hx]
  | cons a rest ih =>
      intro v
      rw [List.foldl_cons]
      obtain ⟨hmem, hle⟩ := ih (Min.min v a)
      constructor
      · rcases List.mem_cons.mp hmem with h | h
        · rcases min_choice v a with h' | h' <;> rw [h] <;> rw [h'] <;> simp
        · simp [h]
      · intro x hx
        rcases List.mem_cons.mp hx with rfl | hx'
        · exact le_trans (hle _ (List.mem_cons_self _ _)) (min_le_left _ _)
        · rcases List.mem_cons.mp hx' with rfl | hx''
          · exact le_trans (hle _ (List.mem_cons_self _ _)) (min_le_right _ _)
          · exact hle _ (List.mem_cons_of_mem _ hx'')

lemma foldl_max_spec :
    ∀ (vs : List ℚ) (v : ℚ),
      vs.foldl Max.max v ∈ v :: vs ∧ ∀ x ∈ v :: vs, x ≤ vs.foldl Max.max v := by
  intro vs
  induction vs with
  | nil =>
      intro v
      refine ⟨List.mem_cons_self v [], ?_⟩
      intro x hx
      rw [List.mem_singleton] at hx
      simp [hx]
  | cons a rest ih =>
      intro v
      rw [List.foldl_cons]
      obtain ⟨hmem, hle⟩ := ih (Max.max v a)
      constructor
      · rcases List.mem_cons.mp hmem with h | h
        · rcases max_choice v a with h' | h' <;> rw [h] <;> rw [h'] <;> simp
        · simp [h]
      · intro x hx
        rcases List.mem_cons.mp hx with rfl | hx'
        · exact le_trans (le_max_left _ _) (hle _ (List.mem_cons_self _ _))
        · rcases List.mem_cons.mp hx' with rfl | hx''
          · exact le_trans (le_max_right _ _) (hle _ (List.mem_cons_self _ _))
          · exact hle _ (List.mem_cons_of_mem _ hx'')

lemma foldl_min_perm {v₁ v₂ : ℚ} {vs₁ vs₂ : List ℚ}
    (h : (v₁ :: vs₁).Perm (v₂ :: vs₂)) :
    vs₁.foldl Min.min v₁ = vs₂.foldl Min.min v₂ := by
  obtain ⟨m₁, b₁⟩ := foldl_min_spec vs₁ v₁
  obtain ⟨m₂, b₂⟩ := foldl_min_spec vs₂ v₂
  exact le_antisymm (b₁ _ (h.mem_iff.mpr m₂)) (b₂ _ (h.mem_iff.mp m₁))

lemma foldl_max_perm {v₁ v₂ : ℚ} {vs₁ vs₂ : List ℚ}
    (h : (v₁ :: vs₁).Perm (v₂ :: vs₂)) :
    vs₁.foldl Max.max v₁ = vs₂.foldl Max.max v₂ := by
  obtain ⟨m₁, b₁⟩ := foldl_max_spec vs₁ v₁
  obtain ⟨m₂, b₂⟩ := foldl_max_spec vs₂ v₂
  exact le_antisymm (b₂ _ (h.mem_iff.mp m₁)) (b₁ _ (h.mem_iff.mpr m₂))

lemma statsOf_perm {l₁ l₂ : List ℚ} (h : l₁.Perm l₂) : statsOf l₁ = statsOf l₂ := by
  cases l₁ with
  | nil =>
      have h2 : l₂ = [] := h.symm.eq_nil
      rw [h2]
  | cons v₁ vs₁ =>
      cases l₂ with
      | nil => exact absurd h.eq_nil (by simp)
      | cons v₂ vs₂ =>
          have hlen : vs₁.length = vs₂.length := by
            have := h.length_eq
            simpa using this
          have hsum : (v₁ :: vs₁).sum = (v₂ :: vs₂).sum := h.sum_eq
          simp only [statsOf]
          refine congrArg some ?_
          rw [MetricSummary.mk.injEq]
          refine ⟨by rw [hlen], ?_, foldl_min_perm h, foldl_max_perm h⟩
          rw [hsum, hlen]

lemma lookupName_filterMap (g : String → Option MetricSummary) :
    ∀ (names : List String), names.Nodup → ∀ n,
      lookupName (names.filterMap (fun m => (g m).map (fun st => (m, st)))) n
        = if n ∈ names then g n else none := by
  intro names
  induction names with
  | nil => simp [lookupName]
  | cons m rest ih =>
      intro hnd n
      obtain ⟨hm, hnd'⟩ := List.nodup_cons.mp hnd
      rw [List.filterMap_cons]
      cases hg : g m with
      | none =>
          simp only [Option.map_none']
          rw [ih hnd' n]
          by_cases hn : n = m
          · subst hn
            simp [hm, hg]
          · simp [hn]
      | some st =>
          simp only [Option.map_some']
          rw [lookupName]
          by_cases hn : n = m
          · subst hn
            simp [hg]
          · rw [if_neg (fun hc => hn hc.symm), ih hnd' n]
            simp [hn]

lemma seriesOf_eq_nil_of_not_mem {samples : List (String × ℚ)} {n : String}
    (h : n ∉ seriesNames samples) : seriesOf samples n = [] := by
  rw [mem_seriesNames] at h
  rw [seriesOf, List.map_eq_nil_iff, List.filter_eq_nil_iff]
  intro p hp hpn
  rw [decide_eq_true_eq] at hpn
  exact h (List.mem_map.mpr ⟨p, hp, hpn⟩)

lemma seriesOf_ne_nil_of_mem {samples : List (String × ℚ)} {n : String}
    (h : n ∈ seriesNames samples) : seriesOf samples n ≠ [] := by
  rw [mem_seriesNames] at h
  obtain ⟨p, hp, hpn⟩ := List.mem_map.mp h
  have : p.2 ∈ seriesOf samples n := by
    rw [seriesOf]
    exact List.mem_map.mpr ⟨p, List.mem_filter.mpr ⟨hp, by simp [hpn]⟩, rfl⟩
  exact List.ne_nil_of_mem this

lemma statsOf_eq_none_iff {l : List ℚ} : statsOf l = none ↔ l = [] := by
  cases l <;> simp [statsOf]

lemma lookupName_summary (samples : List (String × ℚ)) (n : String) :
    lookupName (summaryOfMetrics samples) n = statsOf (seriesOf samples n) := by
  rw [summaryOfMetrics,
    lookupName_filterMap (fun m => statsOf (seriesOf samples m)) _ (seriesNames_nodup samples) n]
  by_cases hn : n ∈ seriesNames samples
  · rw [if_pos hn]
  · rw [if_neg hn, seriesOf_eq_nil_of_not_mem hn]
    rfl

lemma filterMap_attach_fst (g : String → Option MetricSummary) :
    ∀ (names : List String), (∀ m ∈ names, (g m).isSome) →
      (names.filterMap (fun m => (g m).map (fun st => (m, st)))).map Prod.fst = names := by
  intro names
  induction names with
  | nil => simp
  | cons m rest ih =>
      intro hall
      rw [List.filterMap_cons]
      cases hg : g m with
      | none =>
          have := hall m (List.mem_cons_self _ _)
          rw [hg] at this
          simp at this
      | some st =>
          simp only [Option.map_some', List.map_cons]
          rw [ih (fun x hx => hall x (List.mem_cons_of_mem _ hx))]

lemma summaryOfMetrics_map_fst (samples : List (String × ℚ)) :
    (summaryOfMetrics samples).map Prod.fst = seriesNames samples := by
  rw [summaryOfMetrics]
  refine filterMap_attach_fst _ _ ?_
  intro m hm
  rw [Option.isSome_iff_ne_none]
  intro hc
  exact seriesOf_ne_nil_of_mem hm (statsOf_eq_none_iff.mp hc)

lemma summaryOfMetrics_eq_nil_iff (samples : List (String × ℚ)) :
    summaryOfMetrics samples = [] ↔ seriesNames samples = [] := by
  rw [← summaryOfMetrics_map_fst samples, List.map_eq_nil_iff]

lemma insertionSortStr_eq_of_perm {l₁ l₂ : List String} (h : l₁.Perm l₂) :
    List.insertionSort (· ≤ ·) l₁ = List.insertionSort (· ≤ ·) l₂ :=
  List.eq_of_perm_of_sorted (r := (· ≤ ·))
    ((List.perm_insertionSort _ _).trans (h.trans (List.perm_insertionSort _ _).symm))
    (List.sorted_insertionSort _ _) (List.sorted_insertionSort _ _)

/-- Core order-invariance: two permuted sample streams give the same summary
dictionary (as a key-to-stats map) and the same printed table. -/
lemma summary_congr_of_perm {samples₁ samples₂ : List (String × ℚ)}
    (h : samples₁.Perm samples₂) :
    (∀ n, lookupName (summaryOfMetrics samples₁) n = lookupName (summaryOfMetrics samples₂) n)
    ∧ print_summary_table (summaryOfMetrics samples₁)
        = print_summary_table (summaryOfMetrics samples₂) := by
  have hnames : (seriesNames samples₁).Perm (seriesNames samples₂) := seriesNames_perm h
  have hlook : ∀ n,
      lookupName (summaryOfMetrics samples₁) n = lookupName (summaryOfMetrics samples₂) n := by
    intro n
    rw [lookupName_summary, lookupName_summary]
    exact statsOf_perm (seriesOf_perm h n)
  refine ⟨hlook, ?_⟩
  by_cases hempty : summaryOfMetrics samples₁ = []
  · have h2 : summaryOfMetrics samples₂ = [] := by
      rw [summaryOfMetrics_eq_nil_iff] at hempty ⊢
      exact (hempty ▸ hnames).symm.eq_nil
    rw [hempty, h2]
  · have h2 : summaryOfMetrics samples₂ ≠ [] := by
      intro hc
      rw [summaryOfMetrics_eq_nil_iff] at hc
      exact hempty (summaryOfMetrics_eq_nil_iff _ |>.mpr ((hc ▸ hnames).eq_nil))
    rw [print_summary_table, print_summary_table, if_neg hempty, if_neg h2]
    have hsort : List.insertionSort (· ≤ ·) ((summaryOfMetrics samples₁).map Prod.fst)
        = List.insertionSort (· ≤ ·) ((summaryOfMetrics samples₂).map Prod.fst) := by
      rw [summaryOfMetrics_map_fst, summaryOfMetrics_map_fst]
      exact insertionSortStr_eq_of_perm hnames
    rw [hsort]
    refine congrArg _ (congrArg _ ?_)
    exact List.filterMap_congr (fun n _ => by rw [hlook n])

lemma runSamples_append (jl : String → Except String JValue)
    (yl : Option (String → Except String JValue)) (l₁ l₂ : List ArtifactEntry) :
    runSamples jl yl (l₁ ++ l₂) = runSamples jl yl l₁ ++ runSamples jl yl l₂ := by
  simp [runSamples]

lemma runSamples_cons (jl : String → Except String JValue)
    (yl : Option (String → Except String JValue)) (e : ArtifactEntry) (fs : List ArtifactEntry) :
    runSamples jl yl (e :: fs) = (processFile jl yl e).1 ++ runSamples jl yl fs := by
  simp [runSamples]

lemma runLogs_append (jl : String → Except String JValue)
    (yl : Option (String → Except String JValue)) (l₁ l₂ : List ArtifactEntry) :
    runLogs jl yl (l₁ ++ l₂) = runLogs jl yl l₁ ++ runLogs jl yl l₂ := by
  simp [runLogs]

lemma runLogs_cons (jl : String → Except String JValue)
    (yl : Option (String → Except String JValue)) (e : ArtifactEntry) (fs : List ArtifactEntry) :
    runLogs jl yl (e :: fs) = (processFile jl yl e).2 ++ runLogs jl yl fs := by
  simp [runLogs]

lemma runSamples_perm (jl : String → Except String JValue)
    (yl : Option (String → Except String JValue)) {fs₁ fs₂ : List ArtifactEntry}
    (h : fs₁.Perm fs₂) : (runSamples jl yl fs₁).Perm (runSamples jl yl fs₂) :=
  List.Perm.flatMap_right _ h

/-- When every non-blank line parses, the `.jsonl` loop runs to the end:
no diagnostics, and the samples are the per-line samples concatenated in
line order. -/
lemma processLines_of_ok (jl : String → Except String JValue) (path : String) :
    ∀ (lines : List String),
      (∀ line ∈ lines, isBlank line = false → ∃ d, jl line = .ok d) →
      processLines jl path lines = (lines.flatMap (lineSamples jl), []) := by
  intro lines
  induction lines with
  | nil => intro _; rfl
  | cons line rest ih =>
      intro hok
      have hrest := ih (fun l hl => hok l (List.mem_cons_of_mem _ hl))
      by_cases hb : isBlank line
      · simp [processLines, hb, hrest, lineSamples]
      · obtain ⟨d, hd⟩ := hok line (List.mem_cons_self _ _) (by simpa using hb)
        simp [processLines, hb, hd, hrest, lineSamples]

lemma summarize_json_single (jl : String → Except String JValue)
    (yl : Option (String → Except String JValue)) (path text : String) (d : JValue)
    (h : jl text = .ok d) :
    (summarize_artifacts jl yl [⟨path, false, ".json", text⟩]).1
      = summaryOfMetrics (collect_numeric d "") := by
  simp [summarize_artifacts, runSamples, processFile, h]

lemma summarize_jsonl_single (jl : String → Except String JValue)
    (yl : Option (String → Except String JValue)) (path text : String) :
    (summarize_artifacts jl yl [⟨path, false, ".jsonl", text⟩]).1
      = summaryOfMetrics ((processLines jl path (splitLines text)).1) := by
  simp [summarize_artifacts, runSamples, processFile]

lemma statsOf_singleton (v : ℚ) : statsOf [v] = some ⟨1, v, v, v⟩ := by
  simp [statsOf]

lemma statsOf_pair (a b : ℚ) :
    statsOf [a, b] = some ⟨2, (a + b) / 2, Min.min a b, Max.max a b⟩ := by
  simp [statsOf]

lemma eval_summary_AB :
    summaryOfMetrics [("a.b", (1 : ℚ)), ("a.c", (5/2 : ℚ))]
      = [("a.b", ⟨1, 1, 1, 1⟩), ("a.c", ⟨1, 5/2, 5/2, 5/2⟩)] := by
  have hn : seriesNames [("a.b", (1 : ℚ)), ("a.c", (5/2 : ℚ))] = ["a.b", "a.c"] := rfl
  have h1 : seriesOf [("a.b", (1 : ℚ)), ("a.c", (5/2 : ℚ))] "a.b" = [1] := rfl
  have h2 : seriesOf [("a.b", (1 : ℚ)), ("a.c", (5/2 : ℚ))] "a.c" = [5/2] := rfl
  simp [summaryOfMetrics, hn, h1, h2, statsOf_singleton]

lemma eval_summary_X13 :
    summaryOfMetrics [("x", (1 : ℚ)), ("x", (3 : ℚ))] = [("x", ⟨2, 2, 1, 3⟩)] := by
  have hn : seriesNames [("x", (1 : ℚ)), ("x", (3 : ℚ))] = ["x"] := rfl
  have h1 : seriesOf [("x", (1 : ℚ)), ("x", (3 : ℚ))] "x" = [1, 3] := rfl
  simp [summaryOfMetrics, hn, h1, statsOf_pair]
  norm_num

/-- Claim C2: every numeric leaf is recorded under the dotted path of mapping keys
and list indices; summarizing a directory whose single entry is a JSON file
parsing to the document `{"a": {"b": 1, "c": 2.5}}` yields exactly the two
series `a.b` (count 1, mean 1, min 1, max 1) and `a.c` (count 1, mean 2.5,
min 2.5, max 2.5). -/
theorem summarize_dotted_path_example (jl : String → Except String JValue)
    (yl : Option (String → Except String JValue)) (path text : String)
    (h : jl text = .ok docAB) :
    (summarize_artifacts jl yl [⟨path, false, ".json", text⟩]).1
      = [("a.b", ⟨1, 1, 1, 1⟩), ("a.c", ⟨1, 5/2, 5/2, 5/2⟩)] := by
  rw [summarize_json_single jl yl path text docAB h]
  have hcol : collect_numeric docAB "" = [("a.b", (1 : ℚ)), ("a.c", (5/2 : ℚ))] := rfl
  rw [hcol, eval_summary_AB]

/-- Witness for C2 at the concrete parser `demoJsonLoads` and the concrete
file `results.json`. -/
theorem summarize_dotted_path_example_witness :
    demoJsonLoads abText = .ok docAB
    ∧ (summarize_artifacts demoJsonLoads none [⟨"results.json", false, ".json", abText⟩]).1
        = [("a.b", ⟨1, 1, 1, 1⟩), ("a.c", ⟨1, 5/2, 5/2, 5/2⟩)] :=
  ⟨rfl, summarize_dotted_path_example demoJsonLoads none "results.json" abText rfl⟩

/-- Claim C3: the traversal records integer and floating-point scalars and drops
booleans, strings and null; a document `{"flag": true, "name": "ok"}`
contributes zero numeric series. -/
theorem collect_numeric_excludes_non_numeric (pre s : String) (b : Bool) (q : ℚ)
    (jl : String → Except String JValue) (yl : Option (String → Except String JValue))
    (path text : String) (h : jl text = .ok docFlag) :
    collect_numeric (.jbool b) pre = []
    ∧ collect_numeric (.jstr s) pre = []
    ∧ collect_numeric .jnull pre = []
    ∧ collect_numeric (.jnum q) pre = [(rstripDot pre, q)]
    ∧ (summarize_artifacts jl yl [⟨path, false, ".json", text⟩]).1 = [] := by
  refine ⟨rfl, rfl, rfl, rfl, ?_⟩
  rw [summarize_json_single jl yl path text docFlag h]
  rfl

/-- Witness for C3 at the concrete parser `demoJsonLoads`. -/
theorem collect_numeric_excludes_non_numeric_witness :
    demoJsonLoads flagText = .ok docFlag
    ∧ collect_numeric (.jbool true) "p." = []
    ∧ (summarize_artifacts demoJsonLoads none [⟨"r.json", false, ".json", flagText⟩]).1 = [] := by
  refine ⟨rfl, ?_, ?_⟩
  · exact (collect_numeric_excludes_non_numeric "p." "ok" true 7 demoJsonLoads none
      "r.json" flagText rfl).1
  · exact (collect_numeric_excludes_non_numeric "p." "ok" true 7 demoJsonLoads none
      "r.json" flagText rfl).2.2.2.2

/-- Claim C5: a `.jsonl` file is parsed one non-blank line at a time (blank lines
skipped) and all lines accumulate into the same series; with the lines
`{"x": 1}` and `{"x": 3}` the result is the single series `x` with count 2,
mean 2, min 1, max 3. -/
theorem jsonl_per_line_accumulation (jl : String → Except String JValue)
    (yl : Option (String → Except String JValue)) (path : String)
    (h₁ : jl lineX1 = .ok docX1) (h₃ : jl lineX3 = .ok docX3) :
    (summarize_artifacts jl yl [⟨path, false, ".jsonl", lineX1 ++ "\n" ++ lineX3⟩]).1
      = [("x", ⟨2, 2, 1, 3⟩)]
    ∧ ∀ (p bl : String) (lines : List String), isBlank bl = true →
        processLines jl p (bl :: lines) = processLines jl p lines := by
  constructor
  · rw [summarize_jsonl_single]
    have hsplit : splitLines (lineX1 ++ "\n" ++ lineX3) = [lineX1, lineX3] := rfl
    rw [hsplit]
    have hb1 : isBlank lineX1 = false := rfl
    have hb3 : isBlank lineX3 = false := rfl
    have hc1 : collect_numeric docX1 "" = [("x", (1 : ℚ))] := rfl
    have hc3 : collect_numeric docX3 "" = [("x", (3 : ℚ))] := rfl
    simp only [processLines, hb1, hb3, h₁, h₃, hc1, hc3, Bool.false_eq_true, if_false,
      List.append_nil, List.nil_append, List.cons_append, List.singleton_append]
    exact eval_summary_X13
  · intro p bl lines hb
    simp [processLines, hb]

/-- Witness for C5 at the concrete parser `demoJsonLoads`. -/
theorem jsonl_per_line_accumulation_witness :
    demoJsonLoads lineX1 = .ok docX1
    ∧ demoJsonLoads lineX3 = .ok docX3
    ∧ isBlank " " = true
    ∧ (summarize_artifacts demoJsonLoads none
        [⟨"runs.jsonl", false, ".jsonl", lineX1 ++ "\n" ++ lineX3⟩]).1 = [("x", ⟨2, 2, 1, 3⟩)]
    ∧ processLines demoJsonLoads "runs.jsonl" (" " :: [lineX1])
        = processLines demoJsonLoads "runs.jsonl" [lineX1] := by
  refine ⟨rfl, rfl, rfl, ?_, ?_⟩
  · exact (jsonl_per_line_accumulation demoJsonLoads none "runs.jsonl" rfl rfl).1
  · exact (jsonl_per_line_accumulation demoJsonLoads none "runs.jsonl" rfl rfl).2
      "runs.jsonl" " " [lineX1] rfl

/-- Claim C6: every entry of the summary mapping comes from a series with at least
one sample, so its count is at least 1 (no entry is materialized for an
empty series). -/
theorem summary_count_at_least_one (jl : String → Except String JValue)
    (yl : Option (String → Except String JValue)) (fs : List ArtifactEntry)
    (n : String) (st : MetricSummary)
    (h : (n, st) ∈ (summarize_artifacts jl yl fs).1) : (1 : ℚ) ≤ st.count := by
  simp only [summarize_artifacts, summaryOfMetrics] at h
  obtain ⟨m, _, hsome⟩ := List.mem_filterMap.mp h
  obtain ⟨st', hst', heq⟩ := Option.map_eq_some'.mp hsome
  have hsnd : st' = st := congrArg Prod.snd heq
  subst hsnd
  cases hl : seriesOf (runSamples jl yl fs) m with
  | nil => rw [hl] at hst'; exact absurd hst' (by simp [statsOf])
  | cons v vs =>
      rw [hl, statsOf] at hst'
      have hc : st'.count = ((vs.length + 1 : ℕ) : ℚ) :=
        congrArg MetricSummary.count (Option.some_inj.mp hst').symm
      rw [hc]
      exact_mod_cast Nat.succ_le_succ (Nat.zero_le vs.length)

/-- Witness for C6: the entry `a.b` of the demo summary has count 1. -/
theorem summary_count_at_least_one_witness :
    ("a.b", (⟨1, 1, 1, 1⟩ : MetricSummary)) ∈
        (summarize_artifacts demoJsonLoads none [⟨"results.json", false, ".json", abText⟩]).1
    ∧ (1 : ℚ) ≤ (⟨1, 1, 1, 1⟩ : MetricSummary).count := by
  have hmem : ("a.b", (⟨1, 1, 1, 1⟩ : MetricSummary)) ∈
      (summarize_artifacts demoJsonLoads none [⟨"results.json", false, ".json", abText⟩]).1 := by
    rw [summarize_json_single demoJsonLoads none "results.json" abText docAB rfl]
    have hcol : collect_numeric docAB "" = [("a.b", (1 : ℚ)), ("a.c", (5/2 : ℚ))] := rfl
    rw [hcol, eval_summary_AB]
    exact List.mem_cons_self _ _
  exact ⟨hmem, summary_count_at_least_one demoJsonLoads none _ _ _ hmem⟩

/-- Claim C9: an empty summary (no files, or no numeric content) prints the
explicit no-metrics line instead of an empty table, and the summarize
command exits 0. -/
theorem empty_summary_no_metrics (dir : String) (jl : String → Except String JValue)
    (yl : Option (String → Except String JValue)) (fs : List ArtifactEntry)
    (h : (summarize_artifacts jl yl fs).1 = []) :
    print_summary_table (summarize_artifacts jl yl fs).1 = [TableLine.noMetrics]
    ∧ summarize_cmd dir true jl yl fs
        = .ok ([TableLine.noMetrics], (summarize_artifacts jl yl fs).2, 0)
    ∧ (summarize_artifacts jl yl ([] : List ArtifactEntry)).1 = [] := by
  have hp : print_summary_table (summarize_artifacts jl yl fs).1 = [TableLine.noMetrics] := by
    rw [h, print_summary_table, if_pos rfl]
  refine ⟨hp, ?_, rfl⟩
  simp [summarize_cmd, hp]

/-- Witness for C9 at the empty directory. -/
theorem empty_summary_no_metrics_witness :
    (summarize_artifacts demoJsonLoads none ([] : List ArtifactEntry)).1 = []
    ∧ print_summary_table
        (summarize_artifacts demoJsonLoads none ([] : List ArtifactEntry)).1
      = [TableLine.noMetrics]
    ∧ summarize_cmd "artifacts" true demoJsonLoads none []
        = .ok ([TableLine.noMetrics], (summarize_artifacts demoJsonLoads none []).2, 0) :=
  ⟨rfl, (empty_summary_no_metrics "artifacts" demoJsonLoads none [] rfl).1,
    (empty_summary_no_metrics "artifacts" demoJsonLoads none [] rfl).2.1⟩

/-- Claim C1 counterexample: visiting the lines of a `.jsonl` file in a different
order is NOT statistics-preserving when a line fails to parse, because the
raised exception drops all lines after the malformed one.  The same two
lines (`{"x": 1}` and the unparseable `not json`) give one series in one
order and none in the other. -/
theorem summarize_line_order_counterexample :
    (splitLines (lineX1 ++ "\n" ++ "not json")).Perm (splitLines ("not json" ++ "\n" ++ lineX1))
    ∧ (summarize_artifacts demoJsonLoads none
        [⟨"r.jsonl", false, ".jsonl", lineX1 ++ "\n" ++ "not json"⟩]).1
      ≠ (summarize_artifacts demoJsonLoads none
        [⟨"r.jsonl", false, ".jsonl", "not json" ++ "\n" ++ lineX1⟩]).1 := by
  constructor
  · have h1 : splitLines (lineX1 ++ "\n" ++ "not json") = [lineX1, "not json"] := rfl
    have h2 : splitLines ("not json" ++ "\n" ++ lineX1) = ["not json", lineX1] := rfl
    rw [h1, h2]
    exact List.Perm.swap _ _ _
  · intro hc
    have hlen1 : (summarize_artifacts demoJsonLoads none
        [⟨"r.jsonl", false, ".jsonl", lineX1 ++ "\n" ++ "not json"⟩]).1.length = 1 := by decide
    have hlen0 : (summarize_artifacts demoJsonLoads none
        [⟨"r.jsonl", false, ".jsonl", "not json" ++ "\n" ++ lineX1⟩]).1.length = 0 := by decide
    rw [hc, hlen0] at hlen1
    exact absurd hlen1 (by decide)

/-- Claim C1 (amended): for a fixed set of artifact files and contents the
per-series statistics and the printed table are invariant under the order
the files are visited; and for a `.jsonl` file they are also invariant
under the order of its lines provided every non-blank line parses
successfully (a parse failure truncates that file at the failing line, so
reordering across a malformed line can change the result). -/
theorem summarize_visit_order_invariant (jl : String → Except String JValue)
    (yl : Option (String → Except String JValue)) :
    (∀ fs₁ fs₂ : List ArtifactEntry, fs₁.Perm fs₂ →
      (∀ n, lookupName (summarize_artifacts jl yl fs₁).1 n
          = lookupName (summarize_artifacts jl yl fs₂).1 n)
      ∧ print_summary_table (summarize_artifacts jl yl fs₁).1
          = print_summary_table (summarize_artifacts jl yl fs₂).1)
    ∧
    (∀ (pre post : List ArtifactEntry) (p t₁ t₂ : String),
      (splitLines t₁).Perm (splitLines t₂) →
      (∀ line ∈ splitLines t₁, isBlank line = false → ∃ d, jl line = .ok d) →
      (∀ n, lookupName
          (summarize_artifacts jl yl (pre ++ ⟨p, false, ".jsonl", t₁⟩ :: post)).1 n
        = lookupName
          (summarize_artifacts jl yl (pre ++ ⟨p, false, ".jsonl", t₂⟩ :: post)).1 n)
      ∧ print_summary_table
          (summarize_artifacts jl yl (pre ++ ⟨p, false, ".jsonl", t₁⟩ :: post)).1
        = print_summary_table
          (summarize_artifacts jl yl (pre ++ ⟨p, false, ".jsonl", t₂⟩ :: post)).1) := by
  constructor
  · intro fs₁ fs₂ h
    exact summary_congr_of_perm (runSamples_perm jl yl h)
  · intro pre post p t₁ t₂ hperm hok
    have hok₂ : ∀ line ∈ splitLines t₂, isBlank line = false → ∃ d, jl line = .ok d :=
      fun l hl => hok l (hperm.mem_iff.mpr hl)
    have h₁ := processLines_of_ok jl p (splitLines t₁) hok
    have h₂ := processLines_of_ok jl p (splitLines t₂) hok₂
    have hf₁ : (processFile jl yl ⟨p, false, ".jsonl", t₁⟩).1
        = (splitLines t₁).flatMap (lineSamples jl) := by
      simp [processFile, h₁]
    have hf₂ : (processFile jl yl ⟨p, false, ".jsonl", t₂⟩).1
        = (splitLines t₂).flatMap (lineSamples jl) := by
      simp [processFile, h₂]
    have hsamples : (runSamples jl yl (pre ++ ⟨p, false, ".jsonl", t₁⟩ :: post)).Perm
        (runSamples jl yl (pre ++ ⟨p, false, ".jsonl", t₂⟩ :: post)) := by
      rw [runSamples_append, runSamples_cons, runSamples_append, runSamples_cons, hf₁, hf₂]
      exact ((List.Perm.flatMap_right (lineSamples jl) hperm).append_right
        (runSamples jl yl post)).append_left (runSamples jl yl pre)
    exact summary_congr_of_perm hsamples

/-- Witness for C1: two concrete JSON files fed in both orders, and a
concrete `.jsonl` file whose two well-formed lines are swapped. -/
theorem summarize_visit_order_invariant_witness :
    ([⟨"a.json", false, ".json", abText⟩, ⟨"x.json", false, ".json", lineX1⟩] :
        List ArtifactEntry).Perm
      [⟨"x.json", false, ".json", lineX1⟩, ⟨"a.json", false, ".json", abText⟩]
    ∧ (∀ n, lookupName (summarize_artifacts demoJsonLoads none
          [⟨"a.json", false, ".json", abText⟩, ⟨"x.json", false, ".json", lineX1⟩]).1 n
        = lookupName (summarize_artifacts demoJsonLoads none
          [⟨"x.json", false, ".json", lineX1⟩, ⟨"a.json", false, ".json", abText⟩]).1 n)
    ∧ print_summary_table (summarize_artifacts demoJsonLoads none
          [⟨"a.json", false, ".json", abText⟩, ⟨"x.json", false, ".json", lineX1⟩]).1
        = print_summary_table (summarize_artifacts demoJsonLoads none
          [⟨"x.json", false, ".json", lineX1⟩, ⟨"a.json", false, ".json", abText⟩]).1
    ∧ (splitLines (lineX1 ++ "\n" ++ lineX3)).Perm (splitLines (lineX3 ++ "\n" ++ lineX1))
    ∧ (∀ n, lookupName (summarize_artifacts demoJsonLoads none
          [⟨"runs.jsonl", false, ".jsonl", lineX1 ++ "\n" ++ lineX3⟩]).1 n
        = lookupName (summarize_artifacts demoJsonLoads none
          [⟨"runs.jsonl", false, ".jsonl", lineX3 ++ "\n" ++ lineX1⟩]).1 n) := by
  have hp : ([⟨"a.json", false, ".json", abText⟩, ⟨"x.json", false, ".json", lineX1⟩] :
      List ArtifactEntry).Perm
      [⟨"x.json", false, ".json", lineX1⟩, ⟨"a.json", false, ".json", abText⟩] :=
    List.Perm.swap _ _ _
  have hlp : (splitLines (lineX1 ++ "\n" ++ lineX3)).Perm
      (splitLines (lineX3 ++ "\n" ++ lineX1)) := by
    have h1 : splitLines (lineX1 ++ "\n" ++ lineX3) = [lineX1, lineX3] := rfl
    have h2 : splitLines (lineX3 ++ "\n" ++ lineX1) = [lineX3, lineX1] := rfl
    rw [h1, h2]
    exact List.Perm.swap _ _ _
  have hok : ∀ line ∈ splitLines (lineX1 ++ "\n" ++ lineX3), isBlank line = false →
      ∃ d, demoJsonLoads line = .ok d := by
    have h1 : splitLines (lineX1 ++ "\n" ++ lineX3) = [lineX1, lineX3] := rfl
    rw [h1]
    intro l hl _
    rcases List.mem_cons.mp hl with rfl | hl'
    · exact ⟨docX1, rfl⟩
    · rcases List.mem_cons.mp hl' with rfl | hl''
      · exact ⟨docX3, rfl⟩
      · cases hl''
  refine ⟨hp, ((summarize_visit_order_invariant demoJsonLoads none).1 _ _ hp).1,
    ((summarize_visit_order_invariant demoJsonLoads none).1 _ _ hp).2, hlp, ?_⟩
  exact ((summarize_visit_order_invariant demoJsonLoads none).2 [] [] "runs.jsonl"
    (lineX1 ++ "\n" ++ lineX3) (lineX3 ++ "\n" ++ lineX1) hlp hok).1

/-- Claim C4: a parse failure in one artifact is logged with the file path and the
error text, the scan continues, the other files' statistics are exactly the
ones obtained without the corrupt file, and the summarize command still
returns exit code 0. -/
theorem parse_error_logged_and_isolated (jl : String → Except String JValue)
    (yl : Option (String → Except String JValue)) (pre post : List ArtifactEntry)
    (e : ArtifactEntry) (exc dir : String)
    (hdir : e.isDir = false) (hsuf : e.suffix = ".json") (herr : jl e.text = .error exc) :
    (summarize_artifacts jl yl (pre ++ e :: post)).1
        = (summarize_artifacts jl yl (pre ++ post)).1
    ∧ skipMsg e.path exc ∈ (summarize_artifacts jl yl (pre ++ e :: post)).2
    ∧ summarize_cmd dir true jl yl (pre ++ e :: post)
        = .ok (print_summary_table (summarize_artifacts jl yl (pre ++ e :: post)).1,
            (summarize_artifacts jl yl (pre ++ e :: post)).2, 0) := by
  have hpf : processFile jl yl e = ([], [skipMsg e.path exc]) := by
    simp [processFile, hdir, hsuf, herr]
  refine ⟨?_, ?_, rfl⟩
  · have hs : runSamples jl yl (pre ++ e :: post) = runSamples jl yl (pre ++ post) := by
      rw [runSamples_append, runSamples_cons, hpf, runSamples_append]
      simp
    simp only [summarize_artifacts]
    rw [hs]
  · simp only [summarize_artifacts]
    rw [runLogs_append, runLogs_cons, hpf]
    simp

/-- Witness for C4: a corrupt `bad.json` next to a well-formed
`good.json`. -/
theorem parse_error_logged_and_isolated_witness :
    demoJsonLoads "not json" = .error "Expecting value: line 1 column 1 (char 0)"
    ∧ (summarize_artifacts demoJsonLoads none
        [⟨"bad.json", false, ".json", "not json"⟩, ⟨"good.json", false, ".json", abText⟩]).1
      = (summarize_artifacts demoJsonLoads none
        [⟨"good.json", false, ".json", abText⟩]).1
    ∧ skipMsg "bad.json" "Expecting value: line 1 column 1 (char 0)" ∈
        (summarize_artifacts demoJsonLoads none
          [⟨"bad.json", false, ".json", "not json"⟩, ⟨"good.json", false, ".json", abText⟩]).2 := by
  have h := parse_error_logged_and_isolated demoJsonLoads none []
    [⟨"good.json", false, ".json", abText⟩] ⟨"bad.json", false, ".json", "not json"⟩
    "Expecting value: line 1 column 1 (char 0)" "artifacts" rfl rfl rfl
  exact ⟨rfl, h.1, h.2.1⟩

/-- Claim C7: for every supported tool profile, `build_command` without a model
appends exactly executable, config part and passthrough arguments (hence no
model flag appears, given that neither the config path nor the passthrough
arguments smuggle one in), and with a non-empty model the model value is
inserted immediately after the profile's model flag `--model`. -/
theorem build_command_model_flag_insertion (tool config m : String)
    (extra : List String) (meta : ToolMeta)
    (hmeta : TOOL_COMMANDS tool = some meta) (hm : m ≠ "") :
    build_command tool config none extra
        = .ok (meta.executable ++ configPart meta config ++ extra)
    ∧ build_command tool config (some m) extra
        = .ok (meta.executable ++ configPart meta config ++ ["--model", m] ++ extra)
    ∧ (config ≠ "--model" → "--model" ∉ extra →
        "--model" ∉ meta.executable ++ configPart meta config ++ extra) := by
  have hcase :
      (tool = "openai-evals" ∧ meta = ⟨["oaieval", "run"], none, some "--model"⟩)
      ∨ (tool = "helm" ∧ meta = ⟨["helm-run"], some "--config", some "--model"⟩)
      ∨ (tool = "lm-eval" ∧ meta = ⟨["lm_eval"], some "--config", some "--model"⟩) := by
    simp only [TOOL_COMMANDS] at hmeta
    by_cases h1 : tool = "openai-evals"
    · rw [if_pos h1] at hmeta
      exact Or.inl ⟨h1, (Option.some_inj.mp hmeta).symm⟩
    · rw [if_neg h1] at hmeta
      by_cases h2 : tool = "helm"
      · rw [if_pos h2] at hmeta
        exact Or.inr (Or.inl ⟨h2, (Option.some_inj.mp hmeta).symm⟩)
      · rw [if_neg h2] at hmeta
        by_cases h3 : tool = "lm-eval"
        · rw [if_pos h3] at hmeta
          exact Or.inr (Or.inr ⟨h3, (Option.some_inj.mp hmeta).symm⟩)
        · rw [if_neg h3] at hmeta
          cases hmeta
  have hdm : decide (m ≠ "") = true := decide_eq_true hm
  rcases hcase with ⟨rfl, rfl⟩ | ⟨rfl, rfl⟩ | ⟨rfl, rfl⟩ <;>
    refine ⟨by simp [build_command, TOOL_COMMANDS, modelPart, pyTruthyStr, hdm],
      by simp [build_command, TOOL_COMMANDS, modelPart, pyTruthyStr, hdm], ?_⟩ <;>
    · intro hcfg hex hc
      simp [configPart, pyTruthyStr] at hc
      rcases hc with hc | hc
      · exact hcfg hc.symm
      · exact hex hc

/-- Witness for C7 at the `helm` profile. -/
theorem build_command_model_flag_insertion_witness :
    TOOL_COMMANDS "helm" = some ⟨["helm-run"], some "--config", some "--model"⟩
    ∧ "gpt-4" ≠ ""
    ∧ build_command "helm" "conf.yaml" none ["--x"]
        = .ok ["helm-run", "--config", "conf.yaml", "--x"]
    ∧ build_command "helm" "conf.yaml" (some "gpt-4") ["--x"]
        = .ok ["helm-run", "--config", "conf.yaml", "--model", "gpt-4", "--x"] := by
  have h := build_command_model_flag_insertion "helm" "conf.yaml" "gpt-4" ["--x"]
    ⟨["helm-run"], some "--config", some "--model"⟩ rfl (by decide)
  exact ⟨rfl, by decide, h.1, h.2.1⟩

/-- Claim C8: a tool identifier outside the profile table makes `build_command`
fail with the descriptive error before any command is constructed, and
`run_tool` propagates that failure before consulting PATH or spawning
anything (no `RunResult` — in particular no spawn record — is produced). -/
theorem build_command_unknown_tool_fails (tool config : String) (model : Option String)
    (extra : List String) (which : String → Bool) (childExit : List String → Int)
    (dry : Bool) (h : TOOL_COMMANDS tool = none) :
    build_command tool config model extra = .error (unsupportedMsg tool)
    ∧ run_tool which childExit tool config model dry extra = .error (unsupportedMsg tool) := by
  have hb : build_command tool config model extra = .error (unsupportedMsg tool) := by
    simp [build_command, h]
  exact ⟨hb, by simp [run_tool, hb]⟩

/-- Witness for C8 at the unknown tool name `nope`. -/
theorem build_command_unknown_tool_fails_witness :
    TOOL_COMMANDS "nope" = none
    ∧ build_command "nope" "c.yaml" (some "m") ["--x"] = .error (unsupportedMsg "nope")
    ∧ run_tool (fun _ => true) (fun _ => 0) "nope" "c.yaml" (some "m") false ["--x"]
        = .error (unsupportedMsg "nope") := by
  have h := build_command_unknown_tool_fails "nope" "c.yaml" (some "m") ["--x"]
    (fun _ => true) (fun _ => 0) false rfl
  exact ⟨rfl, h.1, h.2⟩

/-- Claim C10: with `dry_run = True`, `run_tool` returns exit code 0 and spawns
no process, independently of whether the executable resolves on PATH (the
dry-run branch returns before the availability check); the distinguished
exit code 127 can only arise with `dry_run = False`. -/
theorem dry_run_exits_zero_without_spawn (which which₂ : String → Bool)
    (childExit : List String → Int) (tool config : String) (model : Option String)
    (extra : List String) (dry : Bool) (r : RunResult) :
    run_tool which childExit tool config model true extra
      = run_tool which₂ childExit tool config model true extra
    ∧ (run_tool which childExit tool config model true extra = .ok r →
        r.exitCode = 0 ∧ r.spawned = none)
    ∧ (run_tool which childExit tool config model dry extra = .ok r →
        r.exitCode = 127 → dry = false) := by
  cases hb : build_command tool config model extra with
  | error e =>
      refine ⟨by simp [run_tool, hb], ?_, ?_⟩ <;> intro hc <;> simp [run_tool, hb] at hc
  | ok command =>
      refine ⟨by simp [run_tool, hb], ?_, ?_⟩
      · intro hc
        simp only [run_tool, hb, if_pos] at hc
        rw [← Except.ok.inj hc]
        exact ⟨rfl, rfl⟩
      · intro hc h127
        cases dry with
        | false => rfl
        | true =>
            exfalso
            simp only [run_tool, hb, if_pos] at hc
            rw [← Except.ok.inj hc] at h127
            simp at h127

/-- Witness for C10: a dry run of `helm` with an oracle on which no
executable resolves still returns 0 without spawning. -/
theorem dry_run_exits_zero_without_spawn_witness :
    run_tool (fun _ => false) (fun _ => 1) "helm" "cfg.yaml" none true [] = .ok demoDryRun
    ∧ demoDryRun.exitCode = 0 ∧ demoDryRun.spawned = none := by
  have h : run_tool (fun _ => false) (fun _ => 1) "helm" "cfg.yaml" none true []
      = .ok demoDryRun := rfl
  exact ⟨h, dry_run_exits_zero_without_spawn (fun _ => false) (fun _ => true) (fun _ => 1)
    "helm" "cfg.yaml" none [] false demoDryRun |>.2.1 h⟩

end RunBenchmarks
